import Mathlib

/-!
# k8s-parking-domains: the `check-host` endpoint

A shallow embedding of `src/endpoint/main.go` and the properties of its
configuration loading (`init`, `main`, `splitAndTrim`) and of its single HTTP
handler (`checkHostHandler`).

Conventions of the embedding.

* A Go `string` is a Lean `String`, read as its sequence of runes; only valid
  UTF-8 text is covered.
* `map[string]struct{}` is a `Finset String`: the keys of the map.
* The Go standard library and `github.com/miekg/dns` are outside the
  repository.  The few functions the program calls are written out below
  from their documented behaviour.  The rune case table behind
  `unicode.ToLower` for runes above ASCII depends on the Unicode version of
  the Go toolchain and is a parameter, `caseTable`.
* The DNS exchange is the environment of the handler: a function from the
  query message and the server address to an error or a response message.
  The handler returns its HTTP response together with the list of the DNS
  queries it sent.
* `log.Fatal` is the `Except.error` result of `init`.
-/

namespace Endpoint

/-! ## Go standard library: `unicode`, `strings`, `os` -/

namespace unicode

/-- Go `unicode.IsSpace`: the Latin-1 spaces `\t \n \v \f \r`, space, U+0085,
U+00A0, and above Latin-1 the runes with the Unicode White_Space property. -/
def IsSpace (r : Char) : Bool :=
  let n := r.toNat
  if n ≤ 0xFF then
    n == 0x09 || n == 0x0A || n == 0x0B || n == 0x0C || n == 0x0D || n == 0x20
      || n == 0x85 || n == 0xA0
  else
    n == 0x1680 || (0x2000 ≤ n && n ≤ 0x200A) || n == 0x2028 || n == 0x2029
      || n == 0x202F || n == 0x205F || n == 0x3000

/-- Go `unicode.ToLower`: ASCII runes are handled in place (`A`..`Z` move by
`'a' - 'A'`, every other ASCII rune is returned unchanged); a rune above
ASCII is looked up in the case table. -/
def ToLower (caseTable : Char → Char) (r : Char) : Char :=
  if r.toNat ≤ 0x7F then
    if 'A'.toNat ≤ r.toNat ∧ r.toNat ≤ 'Z'.toNat then Char.ofNat (r.toNat + 32) else r
  else caseTable r

end unicode

namespace strings

/-- Go `strings.HasSuffix`:
`len(s) >= len(suffix) && s[len(s)-len(suffix):] == suffix`. -/
def HasSuffix (s suffix : String) : Bool :=
  decide (suffix.data.length ≤ s.data.length) &&
    (s.data.drop (s.data.length - suffix.data.length) == suffix.data)

/-- The segments of a rune sequence between the occurrences of `sep`. -/
def splitRunes (sep : Char) : List Char → List (List Char)
  | [] => [[]]
  | c :: cs =>
    if c = sep then [] :: splitRunes sep cs
    else
      match splitRunes sep cs with
      | [] => [[c]]
      | seg :: rest => (c :: seg) :: rest

/-- Go `strings.Split(s, sep)` for a separator of one rune (both calls of the
program pass `","`): all substrings of `s` between the separators, in order;
a string without separator, the empty string included, gives one segment. -/
def Split (s : String) (sep : Char) : List String :=
  (splitRunes sep s.data).map String.mk

/-- Go `strings.TrimSpace`: `s` without its leading and trailing white space,
as `unicode.IsSpace` defines it. -/
def TrimSpace (s : String) : String :=
  ⟨((s.data.dropWhile unicode.IsSpace).reverse.dropWhile unicode.IsSpace).reverse⟩

/-- Go `strings.ToLower`: every rune mapped by `unicode.ToLower`. -/
def ToLower (caseTable : Char → Char) (s : String) : String :=
  ⟨s.data.map (unicode.ToLower caseTable)⟩

end strings

/-- The process environment: the value of a variable, when it is set. -/
abbrev Environ := String → Option String

namespace os

/-- Go `os.Getenv`: the value of the variable, the empty string when it is
not set. -/
def Getenv (env : Environ) (key : String) : String :=
  (env key).getD ""

end os

/-! ## `net/http` and `miekg/dns`, as far as the handler uses them -/

namespace http

def StatusOK : Nat := 200
def StatusBadRequest : Nat := 400
def StatusForbidden : Nat := 403

/-- What the handler leaves in its `http.ResponseWriter`: the status code and
the lines of text written to the body.  Each line goes on the wire followed
by a newline: `fmt.Fprintln` and `http.Error` both end the text they are
given with one. -/
structure Response where
  status : Nat
  body : List String
  deriving DecidableEq, Repr

/-- Go `http.Error(w, msg, code)` on a fresh writer: the header is written
with `code`, then `msg` as one line. -/
def Error (msg : String) (code : Nat) : Response :=
  { status := code, body := [msg] }

/-- Go `fmt.Fprintln(w, line)` on a fresh writer: the first write sends the
header with the default status 200, then the line. -/
def Fprintln (line : String) : Response :=
  { status := StatusOK, body := [line] }

/-- Go `url.Values`, the parsed query string: the values of each key, in
order (none when the key does not occur). -/
abbrev Values := String → List String

/-- Go `url.Values.Get`: the first value of the key, the empty string when
there is none. -/
def Values.Get (v : Values) (key : String) : String :=
  match v key with
  | [] => ""
  | x :: _ => x

/-- The part of `*http.Request` the handler reads: `r.URL.Query()`. -/
structure Request where
  query : Values

end http

namespace dns

def TypeNS : Nat := 2
def ClassINET : Nat := 1

/-- A `dns.Question`. -/
structure Question where
  name : String
  qtype : Nat
  qclass : Nat
  deriving DecidableEq, Repr

/-- A resource record of the answer section (`dns.RR`): an NS record
(`*dns.NS`, with its target `Ns`), or a record of another type. -/
inductive RR
  | NS (owner : String) (ns : String)
  | CNAME (owner : String) (target : String)
  | other (owner : String) (rrtype : Nat) (rdata : String)
  deriving DecidableEq, Repr

/-- The fields of `dns.Msg` the program touches. -/
structure Msg where
  recursionDesired : Bool
  question : List Question
  answer : List RR
  deriving DecidableEq, Repr

/-- The zero message, `new(dns.Msg)`. -/
def Msg.new : Msg :=
  { recursionDesired := false, question := [], answer := [] }

/-- `(*dns.Msg).SetQuestion(z, t)`: a recursive query with the one question
`z`, type `t`, class IN. -/
def Msg.SetQuestion (m : Msg) (z : String) (t : Nat) : Msg :=
  { m with recursionDesired := true,
           question := [{ name := z, qtype := t, qclass := ClassINET }] }

/-- `dns.Exchange(m, address)` seen from the handler: the resolver at
`address` answers the query `m` with an error or with a message. -/
abbrev Exchange := Msg → String → Except String Msg

end dns

/-! ## The program: `src/endpoint/main.go` -/

/-- The package-level variables `ourNS` and `resolvers`. -/
structure Globals where
  ourNS : Finset String
  resolvers : List String

/-- The statement `if !strings.HasSuffix(x, ".") { x += "." }`, which `init`
applies to an entry (lines 26-28) and the handler to the domain (lines
79-81). -/
def withTrailingDot (x : String) : String :=
  if !strings.HasSuffix x "." then x ++ "." else x

/-- The key that one pass of the loop of `init` computes from an entry (lines
25-28): the entry trimmed and lowercased, with a trailing dot. -/
def normalizeNS (caseTable : Char → Char) (ns : String) : String :=
  withTrailingDot (strings.ToLower caseTable (strings.TrimSpace ns))

/-- One pass of the loop body of `init` (lines 23-30): the normalised entry
becomes a key of the map. -/
def initStep (caseTable : Char → Char) (ourNS : Finset String) (ns : String) :
    Finset String :=
  insert (normalizeNS caseTable ns) ourNS

/-- The map built by lines 22-30 of `init` from the value of `OUR_NS`. -/
def buildOurNS (caseTable : Char → Char) (nsEnv : String) : Finset String :=
  (strings.Split nsEnv ',').foldl (initStep caseTable) ∅

/-- Go `init` (lines 15-33): fatal when `OUR_NS` is empty or not set,
otherwise the allow-list `ourNS`. -/
def init (caseTable : Char → Char) (env : Environ) : Except String (Finset String) :=
  let nsEnv := os.Getenv env "OUR_NS"
  if nsEnv = "" then
    .error "OUR_NS environment variable not set"
  else
    .ok (buildOurNS caseTable nsEnv)

/-- Go `splitAndTrim` (lines 60-69). -/
def splitAndTrim (s : String) : List String :=
  (strings.Split s ',').foldl
    (fun out part =>
      let part := strings.TrimSpace part
      if part ≠ "" then out ++ [part] else out)
    []

/-- What `main` (lines 37-57) sets up before it serves: the variable
`resolvers` and the listen address. -/
structure Listener where
  resolvers : List String
  addr : String
  deriving DecidableEq, Repr

/-- Go `main` (lines 37-57), up to the call of `http.ListenAndServe`. -/
def main (env : Environ) : Listener :=
  let nsEnv := os.Getenv env "NAMESERVERS"
  let nsEnv := if nsEnv = "" then "1.1.1.1,8.8.8.8" else nsEnv
  let resolvers := splitAndTrim nsEnv
  let port := os.Getenv env "PORT"
  let port := if port = "" then "9000" else port
  { resolvers := resolvers, addr := ":" ++ port }

/-- The loop of `checkHostHandler` over `in.Answer` (lines 92-101): `found`
is set at the first NS record whose lowercased target is a key of `ourNS`;
records of other types are skipped. -/
def findOurNS (caseTable : Char → Char) (ourNS : Finset String) : List dns.RR → Bool
  | [] => false
  | ans :: rest =>
    match ans with
    | .NS _ ns =>
      let nsName := strings.ToLower caseTable ns
      if nsName ∈ ourNS then true else findOurNS caseTable ourNS rest
    | _ => findOurNS caseTable ourNS rest

/-- The address the handler sends its query to (line 86). -/
def resolverAddr : String := "8.8.8.8:53"

/-- The query the handler builds for a non-empty `domain` (lines 78-84): an NS
question for the domain with its trailing dot. -/
def nsQuestion (domain : String) : dns.Msg :=
  dns.Msg.new.SetQuestion (withTrailingDot domain) dns.TypeNS

/-- Go `checkHostHandler` (lines 71-108): the response written, and the DNS
queries sent (message and server address). -/
def checkHostHandler (caseTable : Char → Char) (g : Globals) (exchange : dns.Exchange)
    (r : http.Request) : http.Response × List (dns.Msg × String) :=
  let domain := http.Values.Get r.query "domain"
  if domain = "" then
    (http.Error "missing domain" http.StatusBadRequest, [])
  else
    let m := nsQuestion domain
    match exchange m resolverAddr with
    | .error _ =>
      (http.Error "dns lookup failed" http.StatusForbidden, [(m, resolverAddr)])
    | .ok resp =>
      let found := findOurNS caseTable g.ourNS resp.answer
      if found then
        (http.Fprintln "ok", [(m, resolverAddr)])
      else
        (http.Error "forbidden" http.StatusForbidden, [(m, resolverAddr)])

/-! ## Specification-side definitions -/

/-- What the specification says `splitAndTrim` computes ("splits on comma,
trims each entry, drops empty entries"): the comma-separated segments, each
trimmed, without those that are empty after trimming, in their order. -/
def splitAndTrimSpec (s : String) : List String :=
  ((strings.Split s ',').map strings.TrimSpace).filter (fun part => part ≠ "")

/-- A name without its trailing dot, when it has one. -/
def trimDot (x : String) : String :=
  if strings.HasSuffix x "." then ⟨x.data.dropLast⟩ else x

/-- Two configured entries name the same nameserver: they are equal once the
surrounding white space is trimmed, letter case is folded and a trailing dot
is left out. -/
def sameName (caseTable : Char → Char) (a b : String) : Prop :=
  trimDot (strings.ToLower caseTable (strings.TrimSpace a)) =
    trimDot (strings.ToLower caseTable (strings.TrimSpace b))

instance (caseTable : Char → Char) (a b : String) : Decidable (sameName caseTable a b) := by
  unfold sameName
  infer_instance

/-- Two `OUR_NS` values have the same entries up to order and repetition:
every entry of one names the same nameserver as some entry of the other. -/
def sameEntries (caseTable : Char → Char) (s1 s2 : String) : Prop :=
  (∀ a ∈ strings.Split s1 ',', ∃ b ∈ strings.Split s2 ',', sameName caseTable a b) ∧
  (∀ b ∈ strings.Split s2 ',', ∃ a ∈ strings.Split s1 ',', sameName caseTable a b)

instance (caseTable : Char → Char) (s1 s2 : String) :
    Decidable (sameEntries caseTable s1 s2) := by
  unfold sameEntries
  infer_instance

/-- A DNS name and an allow-list entry are equal "when compared
case-insensitively and after trailing-dot normalisation": they are the same
once letter case is folded and a trailing dot is left out. -/
def sameFoldedName (caseTable : Char → Char) (a b : String) : Prop :=
  trimDot (strings.ToLower caseTable a) = trimDot (strings.ToLower caseTable b)

instance (caseTable : Char → Char) (a b : String) :
    Decidable (sameFoldedName caseTable a b) := by
  unfold sameFoldedName
  infer_instance

/-! ## Concrete inputs -/

/-- A case table without letters above ASCII. -/
def plainCaseTable : Char → Char := fun r => r

/-- The environment with `OUR_NS` set to `ourNS`, and `NAMESERVERS` to
`nameservers` when one is given. -/
def exampleEnv (ourNS : String) (nameservers : Option String) : Environ := fun key =>
  if key = "OUR_NS" then some ourNS
  else if key = "NAMESERVERS" then nameservers
  else none

/-- The request `GET /check-host?domain=<domain>`. -/
def requestFor (domain : String) : http.Request :=
  { query := fun key => if key = "domain" then [domain] else [] }

/-- The request `GET /check-host`, without query string. -/
def requestWithoutDomain : http.Request :=
  { query := fun _ => [] }

/-- A resolver at `8.8.8.8:53` whose answer section is `answer` for every
question; no other address answers. -/
def resolverAnswering (answer : List dns.RR) : dns.Exchange := fun m address =>
  if address = "8.8.8.8:53" then .ok { m with answer := answer }
  else .error "no route to host"

/-- A resolver that gives the answer section `answer` at every address. -/
def anyResolverAnswering (answer : List dns.RR) : dns.Exchange := fun m _ =>
  .ok { m with answer := answer }

/-- A transport on which every exchange times out. -/
def resolverDown : dns.Exchange := fun _ _ => .error "i/o timeout"

/-! ## Lemmas on the library functions -/

theorem HasSuffix_dot_iff (s : String) :
    strings.HasSuffix s "." = true ↔ ∃ t : List Char, s.data = t ++ ['.'] := by
  unfold strings.HasSuffix
  have hd : (".":String).data = ['.'] := rfl
  simp only [hd, List.length_singleton, Bool.and_eq_true, decide_eq_true_eq, beq_iff_eq]
  constructor
  · rintro ⟨_, hdrop⟩
    refine ⟨s.data.take (s.data.length - 1), ?_⟩
    rw [← hdrop, List.take_append_drop]
  · rintro ⟨t, ht⟩
    rw [ht]
    simp

theorem data_append_dot (s : String) : (s ++ ".").data = s.data ++ ['.'] := by
  rw [String.data_append]

theorem HasSuffix_withTrailingDot (s : String) :
    strings.HasSuffix (withTrailingDot s) "." = true := by
  unfold withTrailingDot
  cases h : strings.HasSuffix s "."
  · simp only [Bool.not_false, if_true]
    exact (HasSuffix_dot_iff _).2 ⟨s.data, data_append_dot s⟩
  · simpa using h

theorem rtrim_getLast (p : Char → Bool) (l : List Char) (c : Char)
    (h : ((l.reverse.dropWhile p).reverse).getLast? = some c) : p c = false := by
  rw [List.getLast?_reverse] at h
  have := List.head?_dropWhile_not p l.reverse
  rw [h] at this
  exact this

theorem rtrim_isPrefix (p : Char → Bool) (l : List Char) :
    (l.reverse.dropWhile p).reverse <+: l := by
  have h := List.dropWhile_suffix p (l := l.reverse)
  have h2 := List.reverse_prefix.2 h
  simpa using h2

theorem TrimSpace_getLast (s : String) (c : Char)
    (h : (strings.TrimSpace s).data.getLast? = some c) : unicode.IsSpace c = false :=
  rtrim_getLast unicode.IsSpace _ c h

theorem TrimSpace_head (s : String) (c : Char)
    (h : (strings.TrimSpace s).data.head? = some c) : unicode.IsSpace c = false := by
  obtain ⟨t, ht⟩ := rtrim_isPrefix unicode.IsSpace (s.data.dropWhile unicode.IsSpace)
  have hd : (strings.TrimSpace s).data
      = ((s.data.dropWhile unicode.IsSpace).reverse.dropWhile unicode.IsSpace).reverse := rfl
  rw [hd] at h
  have h2 := List.head?_dropWhile_not unicode.IsSpace s.data
  rw [← ht] at h2
  cases hx : ((s.data.dropWhile unicode.IsSpace).reverse.dropWhile unicode.IsSpace).reverse with
  | nil => rw [hx] at h; simp at h
  | cons a as =>
    rw [hx] at h h2
    simp only [List.head?_cons, Option.some.injEq] at h
    simpa [h] using h2

theorem TrimSpace_subset (s : String) (c : Char) (h : c ∈ (strings.TrimSpace s).data) :
    c ∈ s.data := by
  have h1 := (rtrim_isPrefix unicode.IsSpace (s.data.dropWhile unicode.IsSpace)).subset h
  exact List.dropWhile_subset _ h1

theorem TrimSpace_eq_empty (s : String) (h : ∀ c ∈ s.data, unicode.IsSpace c = true) :
    strings.TrimSpace s = "" := by
  have h1 : s.data.dropWhile unicode.IsSpace = [] := List.dropWhile_eq_nil_iff.2 h
  apply String.ext
  show ((s.data.dropWhile unicode.IsSpace).reverse.dropWhile unicode.IsSpace).reverse = []
  rw [h1]
  rfl

theorem splitRunes_ne_nil (sep : Char) (l : List Char) : strings.splitRunes sep l ≠ [] := by
  cases l with
  | nil => simp [strings.splitRunes]
  | cons c cs =>
    unfold strings.splitRunes
    split
    · simp
    · split <;> simp

theorem not_mem_of_mem_splitRunes (sep : Char) (l seg : List Char)
    (h : seg ∈ strings.splitRunes sep l) : sep ∉ seg := by
  induction l generalizing seg with
  | nil =>
    simp only [strings.splitRunes, List.mem_singleton] at h
    simp [h]
  | cons c cs ih =>
    unfold strings.splitRunes at h
    split at h
    · rcases List.mem_cons.1 h with h | h
      · simp [h]
      · exact ih seg h
    · next hc =>
      split at h
      · simp only [List.mem_singleton] at h
        subst h
        simpa using Ne.symm hc
      · next s0 rest heq =>
        rcases List.mem_cons.1 h with h | h
        · subst h
          have := ih s0 (by rw [heq]; exact List.mem_cons_self _ _)
          simp only [List.mem_cons, not_or]
          exact ⟨Ne.symm hc, this⟩
        · exact ih seg (by rw [heq]; exact List.mem_cons_of_mem _ h)

theorem Split_ne_nil (s : String) (sep : Char) : strings.Split s sep ≠ [] := by
  unfold strings.Split
  simpa using splitRunes_ne_nil sep s.data

theorem not_mem_of_mem_Split (s : String) (sep : Char) (seg : String)
    (h : seg ∈ strings.Split s sep) : sep ∉ seg.data := by
  unfold strings.Split at h
  obtain ⟨l, hl, rfl⟩ := List.mem_map.1 h
  exact not_mem_of_mem_splitRunes sep _ l hl

/-! ## Lemmas on the program -/

theorem mem_foldl_initStep (caseTable : Char → Char) (l : List String)
    (acc : Finset String) (e : String) :
    e ∈ l.foldl (initStep caseTable) acc ↔
      e ∈ acc ∨ ∃ seg ∈ l, normalizeNS caseTable seg = e := by
  induction l generalizing acc with
  | nil => simp
  | cons a as ih =>
    rw [List.foldl_cons, ih]
    simp only [initStep, Finset.mem_insert, List.mem_cons, exists_eq_or_imp]
    constructor
    · rintro ((h | h) | h)
      · exact Or.inr (Or.inl h.symm)
      · exact Or.inl h
      · exact Or.inr (Or.inr h)
    · rintro (h | h | h)
      · exact Or.inl (Or.inr h)
      · exact Or.inl (Or.inl h.symm)
      · exact Or.inr h

theorem mem_buildOurNS (caseTable : Char → Char) (nsEnv e : String) :
    e ∈ buildOurNS caseTable nsEnv ↔
      ∃ seg ∈ strings.Split nsEnv ',', normalizeNS caseTable seg = e := by
  unfold buildOurNS
  rw [mem_foldl_initStep]
  simp

theorem findOurNS_eq_true_iff (caseTable : Char → Char) (ourNS : Finset String)
    (answer : List dns.RR) :
    findOurNS caseTable ourNS answer = true ↔
      ∃ owner ns, dns.RR.NS owner ns ∈ answer ∧ strings.ToLower caseTable ns ∈ ourNS := by
  induction answer with
  | nil => simp [findOurNS]
  | cons ans rest ih =>
    cases ans with
    | NS owner ns =>
      simp only [findOurNS]
      by_cases h : strings.ToLower caseTable ns ∈ ourNS
      · simp only [h, if_true, true_iff]
        exact ⟨owner, ns, List.mem_cons_self _ _, h⟩
      · simp only [h, if_false, ih]
        constructor
        · rintro ⟨o, n, hmem, hn⟩
          exact ⟨o, n, List.mem_cons_of_mem _ hmem, hn⟩
        · rintro ⟨o, n, hmem, hn⟩
          rcases List.mem_cons.1 hmem with heq | hmem
          · injection heq with h1 h2
            subst h2
            exact absurd hn h
          · exact ⟨o, n, hmem, hn⟩
    | CNAME owner target =>
      simp only [findOurNS, ih]
      constructor
      · rintro ⟨o, n, hmem, hn⟩
        exact ⟨o, n, List.mem_cons_of_mem _ hmem, hn⟩
      · rintro ⟨o, n, hmem, hn⟩
        rcases List.mem_cons.1 hmem with heq | hmem
        · cases heq
        · exact ⟨o, n, hmem, hn⟩
    | other owner rrtype rdata =>
      simp only [findOurNS, ih]
      constructor
      · rintro ⟨o, n, hmem, hn⟩
        exact ⟨o, n, List.mem_cons_of_mem _ hmem, hn⟩
      · rintro ⟨o, n, hmem, hn⟩
        rcases List.mem_cons.1 hmem with heq | hmem
        · cases heq
        · exact ⟨o, n, hmem, hn⟩

theorem checkHostHandler_of_ok (caseTable : Char → Char) (g : Globals)
    (exchange : dns.Exchange) (r : http.Request) (resp : dns.Msg)
    (hdomain : http.Values.Get r.query "domain" ≠ "")
    (hex : exchange (nsQuestion (http.Values.Get r.query "domain")) resolverAddr = .ok resp) :
    checkHostHandler caseTable g exchange r =
      (if findOurNS caseTable g.ourNS resp.answer then http.Fprintln "ok"
        else http.Error "forbidden" http.StatusForbidden,
       [(nsQuestion (http.Values.Get r.query "domain"), resolverAddr)]) := by
  unfold checkHostHandler
  simp only [hdomain, if_false, hex]
  split <;> rfl

/-! ## Lemmas on lowercasing and the trailing dot -/

theorem toNat_ofNat_small (m : Nat) (h : m < 0xD800) : (Char.ofNat m).toNat = m := by
  unfold Char.ofNat
  have hv : m.isValidChar := Or.inl h
  rw [dif_pos hv]
  rfl

theorem unicode_ToLower_idem (caseTable : Char → Char)
    (htable : ∀ r : Char, 0x7F < r.toNat →
      unicode.ToLower caseTable (caseTable r) = caseTable r) (r : Char) :
    unicode.ToLower caseTable (unicode.ToLower caseTable r) = unicode.ToLower caseTable r := by
  have hA : 'A'.toNat = 65 := rfl
  have hZ : 'Z'.toNat = 90 := rfl
  by_cases hascii : r.toNat ≤ 0x7F
  · by_cases hup : 'A'.toNat ≤ r.toNat ∧ r.toNat ≤ 'Z'.toNat
    · have h1 : unicode.ToLower caseTable r = Char.ofNat (r.toNat + 32) := by
        unfold unicode.ToLower
        rw [if_pos hascii, if_pos hup]
      have h2 : (Char.ofNat (r.toNat + 32)).toNat = r.toNat + 32 :=
        toNat_ofNat_small _ (by omega)
      rw [h1]
      unfold unicode.ToLower
      rw [h2, if_pos (by omega), if_neg (by omega)]
    · have h1 : unicode.ToLower caseTable r = r := by
        unfold unicode.ToLower
        rw [if_pos hascii, if_neg hup]
      rw [h1, h1]
  · have h1 : unicode.ToLower caseTable r = caseTable r := by
      unfold unicode.ToLower
      rw [if_neg hascii]
    rw [h1]
    exact htable r (by omega)

theorem ToLower_idem (caseTable : Char → Char)
    (htable : ∀ r : Char, 0x7F < r.toNat →
      unicode.ToLower caseTable (caseTable r) = caseTable r) (s : String) :
    strings.ToLower caseTable (strings.ToLower caseTable s) = strings.ToLower caseTable s := by
  apply String.ext
  show (s.data.map (unicode.ToLower caseTable)).map (unicode.ToLower caseTable)
    = s.data.map (unicode.ToLower caseTable)
  rw [List.map_map]
  apply List.map_congr_left
  intro r _
  exact unicode_ToLower_idem caseTable htable r

theorem ToLower_append_dot (caseTable : Char → Char) (x : String) :
    strings.ToLower caseTable (x ++ ".") = strings.ToLower caseTable x ++ "." := by
  apply String.ext
  rw [data_append_dot]
  show (x ++ ".").data.map (unicode.ToLower caseTable)
    = x.data.map (unicode.ToLower caseTable) ++ ['.']
  rw [data_append_dot, List.map_append]
  rfl

theorem ToLower_withTrailingDot (caseTable : Char → Char) (x : String)
    (hx : strings.ToLower caseTable x = x) :
    strings.ToLower caseTable (withTrailingDot x) = withTrailingDot x := by
  unfold withTrailingDot
  split
  · rw [ToLower_append_dot, hx]
  · exact hx

theorem ToLower_normalizeNS (caseTable : Char → Char)
    (htable : ∀ r : Char, 0x7F < r.toNat →
      unicode.ToLower caseTable (caseTable r) = caseTable r) (seg : String) :
    strings.ToLower caseTable (normalizeNS caseTable seg) = normalizeNS caseTable seg :=
  ToLower_withTrailingDot caseTable _ (ToLower_idem caseTable htable _)

theorem HasSuffix_ToLower (caseTable : Char → Char) (ns : String)
    (h : strings.HasSuffix ns "." = true) :
    strings.HasSuffix (strings.ToLower caseTable ns) "." = true := by
  obtain ⟨t, ht⟩ := (HasSuffix_dot_iff ns).1 h
  refine (HasSuffix_dot_iff _).2 ⟨t.map (unicode.ToLower caseTable), ?_⟩
  show ns.data.map (unicode.ToLower caseTable) = _
  rw [ht, List.map_append]
  rfl

theorem withTrailingDot_of_HasSuffix (x : String) (h : strings.HasSuffix x "." = true) :
    withTrailingDot x = x := by
  unfold withTrailingDot
  simp [h]

theorem normalize_fqdn_target (caseTable : Char → Char) (ns : String)
    (h : strings.HasSuffix ns "." = true) :
    withTrailingDot (strings.ToLower caseTable ns) = strings.ToLower caseTable ns :=
  withTrailingDot_of_HasSuffix _ (HasSuffix_ToLower caseTable ns h)

theorem withTrailingDot_eq_of_trimDot_eq (x y : String) (h : trimDot x = trimDot y) :
    withTrailingDot x = withTrailingDot y := by
  unfold trimDot at h
  unfold withTrailingDot
  cases hx : strings.HasSuffix x "." <;> cases hy : strings.HasSuffix y "."
  · simp only [hx, hy, Bool.false_eq_true, if_false] at h
    rw [h]
  · obtain ⟨ty, hty⟩ := (HasSuffix_dot_iff y).1 hy
    simp only [hx, hy, if_true, Bool.false_eq_true, if_false] at h
    simp only [Bool.not_false, Bool.not_true, if_true, Bool.false_eq_true, if_false]
    apply String.ext
    rw [data_append_dot, h, hty]
    simp
  · obtain ⟨tx, htx⟩ := (HasSuffix_dot_iff x).1 hx
    simp only [hx, hy, if_true, Bool.false_eq_true, if_false] at h
    simp only [Bool.not_false, Bool.not_true, if_true, Bool.false_eq_true, if_false]
    apply String.ext
    rw [data_append_dot, ← h, htx]
    simp
  · obtain ⟨tx, htx⟩ := (HasSuffix_dot_iff x).1 hx
    obtain ⟨ty, hty⟩ := (HasSuffix_dot_iff y).1 hy
    simp only [hx, hy, if_true] at h
    simp only [Bool.not_true, Bool.false_eq_true, if_false]
    apply String.ext
    have hd : x.data.dropLast = y.data.dropLast := by
      have := congrArg String.data h
      simpa using this
    rw [htx, hty] at hd
    simp only [List.dropLast_concat] at hd
    rw [htx, hty, hd]

theorem normalizeNS_eq_of_sameName (caseTable : Char → Char) (a b : String)
    (h : sameName caseTable a b) : normalizeNS caseTable a = normalizeNS caseTable b :=
  withTrailingDot_eq_of_trimDot_eq _ _ h

theorem buildOurNS_subset_of_entries (caseTable : Char → Char) (s1 s2 : String)
    (h : ∀ a ∈ strings.Split s1 ',', ∃ b ∈ strings.Split s2 ',', sameName caseTable a b)
    (e : String) (he : e ∈ buildOurNS caseTable s1) : e ∈ buildOurNS caseTable s2 := by
  obtain ⟨a, ha, hae⟩ := (mem_buildOurNS caseTable s1 e).1 he
  obtain ⟨b, hb, hab⟩ := h a ha
  refine (mem_buildOurNS caseTable s2 e).2 ⟨b, hb, ?_⟩
  rw [← normalizeNS_eq_of_sameName caseTable a b hab]
  exact hae

theorem foldl_splitAndTrim (l : List String) (acc : List String) :
    l.foldl
      (fun out part =>
        let part := strings.TrimSpace part
        if part ≠ "" then out ++ [part] else out)
      acc
    = acc ++ (l.map strings.TrimSpace).filter (fun part => part ≠ "") := by
  induction l generalizing acc with
  | nil => simp
  | cons a as ih =>
    rw [List.foldl_cons, ih]
    by_cases h : strings.TrimSpace a = ""
    · simp [h]
    · simp [h]

theorem init_ok_of_ne (caseTable : Char → Char) (env : Environ)
    (hne : os.Getenv env "OUR_NS" ≠ "") :
    init caseTable env = .ok (buildOurNS caseTable (os.Getenv env "OUR_NS")) := by
  unfold init
  simp only [hne, if_false]

theorem buildOurNS_nonempty (caseTable : Char → Char) (nsEnv : String) :
    (buildOurNS caseTable nsEnv).Nonempty := by
  cases hsplit : strings.Split nsEnv ',' with
  | nil => exact absurd hsplit (Split_ne_nil nsEnv ',')
  | cons seg rest =>
    refine ⟨normalizeNS caseTable seg, (mem_buildOurNS caseTable nsEnv _).2 ⟨seg, ?_, rfl⟩⟩
    rw [hsplit]
    exact List.mem_cons_self _ _

theorem buildOurNS_of_init_ok (caseTable : Char → Char) (env : Environ)
    (ourNS : Finset String) (h : init caseTable env = .ok ourNS) :
    ourNS = buildOurNS caseTable (os.Getenv env "OUR_NS") := by
  by_cases hne : os.Getenv env "OUR_NS" = ""
  · unfold init at h
    simp only [hne, if_true] at h
    cases h
  · rw [init_ok_of_ne caseTable env hne] at h
    injection h with h
    exact h.symm

theorem ToLower_eq_entry_of_sameFoldedName (caseTable : Char → Char)
    (htable : ∀ r : Char, 0x7F < r.toNat →
      unicode.ToLower caseTable (caseTable r) = caseTable r)
    (nsEnv ns e : String) (he : e ∈ buildOurNS caseTable nsEnv)
    (hfq : strings.HasSuffix ns "." = true) (hsame : sameFoldedName caseTable ns e) :
    strings.ToLower caseTable ns = e := by
  obtain ⟨seg, _, hseg⟩ := (mem_buildOurNS caseTable nsEnv e).1 he
  have hlow : strings.ToLower caseTable e = e := by
    rw [← hseg]
    exact ToLower_normalizeNS caseTable htable seg
  have hdot : withTrailingDot e = e := by
    rw [← hseg]
    exact withTrailingDot_of_HasSuffix _ (HasSuffix_withTrailingDot _)
  have h1 := withTrailingDot_eq_of_trimDot_eq _ _ hsame
  rw [hlow, hdot, normalize_fqdn_target caseTable ns hfq] at h1
  exact h1

/-! ## The handler -/

/-- C1: for every allow-list built by `init`, every request with a non-empty
`domain` and every successful DNS response, if the answer section has an NS
record whose target equals an entry of the allow-list when the two are
compared case-insensitively and after trailing-dot normalisation, the handler
answers status 200 with the body line "ok".  The target is fully qualified,
as the DNS library unpacks names from the wire; the case table of the Go
toolchain is assumed to send a rune above ASCII to a rune that lowercasing
leaves alone. -/
theorem checkHostHandler_ok_of_allowed_ns (caseTable : Char → Char)
    (htable : ∀ r : Char, 0x7F < r.toNat →
      unicode.ToLower caseTable (caseTable r) = caseTable r)
    (env : Environ) (ourNS : Finset String) (resolvers : List String)
    (exchange : dns.Exchange) (r : http.Request) (resp : dns.Msg)
    (owner ns e : String)
    (hinit : init caseTable env = .ok ourNS)
    (hdomain : http.Values.Get r.query "domain" ≠ "")
    (hex : exchange (nsQuestion (http.Values.Get r.query "domain")) resolverAddr = .ok resp)
    (hns : dns.RR.NS owner ns ∈ resp.answer)
    (hfq : strings.HasSuffix ns "." = true)
    (he : e ∈ ourNS)
    (hsame : sameFoldedName caseTable ns e) :
    (checkHostHandler caseTable { ourNS := ourNS, resolvers := resolvers } exchange r).1 =
      { status := 200, body := ["ok"] } := by
  have hbuild := buildOurNS_of_init_ok caseTable env ourNS hinit
  have hkey : strings.ToLower caseTable ns = e :=
    ToLower_eq_entry_of_sameFoldedName caseTable htable (os.Getenv env "OUR_NS") ns e
      (by rw [← hbuild]; exact he) hfq hsame
  have hfound : findOurNS caseTable ourNS resp.answer = true :=
    (findOurNS_eq_true_iff caseTable ourNS resp.answer).2
      ⟨owner, ns, hns, by rw [hkey]; exact he⟩
  rw [checkHostHandler_of_ok caseTable _ exchange r resp hdomain hex]
  show (if findOurNS caseTable ourNS resp.answer = true
    then http.Fprintln "ok" else http.Error "forbidden" http.StatusForbidden) = _
  rw [hfound]
  rfl

/-- The example of the specification, `OUR_NS=ns1.example.com`, the request
`GET /check-host?domain=example.com` and the NS answer `ns1.example.com.`;
and the same request with `OUR_NS=NS1.Example.COM` and the NS answer
`Ns1.EXAMPLE.com.`, which differ from each other in letter case and in the
trailing dot. -/
theorem checkHostHandler_ok_of_allowed_ns_witness :
    (init plainCaseTable (exampleEnv "ns1.example.com" none) = .ok {"ns1.example.com."} ∧
      (checkHostHandler plainCaseTable { ourNS := {"ns1.example.com."}, resolvers := [] }
        (resolverAnswering [dns.RR.NS "example.com." "ns1.example.com."])
        (requestFor "example.com")).1 = { status := 200, body := ["ok"] }) ∧
    (init plainCaseTable (exampleEnv "NS1.Example.COM" none) = .ok {"ns1.example.com."} ∧
      sameFoldedName plainCaseTable "Ns1.EXAMPLE.com." "ns1.example.com." ∧
      (checkHostHandler plainCaseTable { ourNS := {"ns1.example.com."}, resolvers := [] }
        (resolverAnswering [dns.RR.NS "example.com." "Ns1.EXAMPLE.com."])
        (requestFor "example.com")).1 = { status := 200, body := ["ok"] }) :=
  ⟨⟨by rfl,
    checkHostHandler_ok_of_allowed_ns plainCaseTable
      (fun r hr => by
        unfold unicode.ToLower plainCaseTable
        rw [if_neg (by omega)])
      (exampleEnv "ns1.example.com" none) {"ns1.example.com."} []
      (resolverAnswering [dns.RR.NS "example.com." "ns1.example.com."])
      (requestFor "example.com")
      { dns.Msg.new.SetQuestion "example.com." dns.TypeNS with
        answer := [dns.RR.NS "example.com." "ns1.example.com."] }
      "example.com." "ns1.example.com." "ns1.example.com."
      (by rfl) (by decide) (by rfl) (by decide) (by decide) (by decide) (by decide)⟩,
   ⟨by rfl, by decide,
    checkHostHandler_ok_of_allowed_ns plainCaseTable
      (fun r hr => by
        unfold unicode.ToLower plainCaseTable
        rw [if_neg (by omega)])
      (exampleEnv "NS1.Example.COM" none) {"ns1.example.com."} []
      (resolverAnswering [dns.RR.NS "example.com." "Ns1.EXAMPLE.com."])
      (requestFor "example.com")
      { dns.Msg.new.SetQuestion "example.com." dns.TypeNS with
        answer := [dns.RR.NS "example.com." "Ns1.EXAMPLE.com."] }
      "example.com." "Ns1.EXAMPLE.com." "ns1.example.com."
      (by rfl) (by decide) (by rfl) (by decide) (by decide) (by decide) (by decide)⟩⟩

/-- C2: for every allow-list, every request with a non-empty `domain` and
every successful DNS response in whose answer section no NS record has a
lowercased target in the allow-list (an empty answer section, or one made of
records of other types whatever they name, included), the handler answers
status 403 with the body line "forbidden". -/
theorem checkHostHandler_forbidden_of_no_allowed_ns (caseTable : Char → Char) (g : Globals)
    (exchange : dns.Exchange) (r : http.Request) (resp : dns.Msg)
    (hdomain : http.Values.Get r.query "domain" ≠ "")
    (hex : exchange (nsQuestion (http.Values.Get r.query "domain")) resolverAddr = .ok resp)
    (hns : ∀ owner ns, dns.RR.NS owner ns ∈ resp.answer →
      strings.ToLower caseTable ns ∉ g.ourNS) :
    (checkHostHandler caseTable g exchange r).1 =
      { status := 403, body := ["forbidden"] } := by
  have hfalse : findOurNS caseTable g.ourNS resp.answer = false := by
    rw [Bool.eq_false_iff]
    intro h
    obtain ⟨owner, ns, hmem, hin⟩ := (findOurNS_eq_true_iff caseTable g.ourNS resp.answer).1 h
    exact hns owner ns hmem hin
  rw [checkHostHandler_of_ok caseTable g exchange r resp hdomain hex, hfalse]
  rfl

/-- An answer section with a CNAME record that names the allow-listed host,
and no NS record: the handler answers 403 "forbidden". -/
theorem checkHostHandler_forbidden_of_no_allowed_ns_witness :
    (checkHostHandler plainCaseTable { ourNS := {"ns1.example.com."}, resolvers := [] }
      (resolverAnswering [dns.RR.CNAME "example.com." "ns1.example.com."])
      (requestFor "example.com")).1 = { status := 403, body := ["forbidden"] } :=
  checkHostHandler_forbidden_of_no_allowed_ns plainCaseTable _ _ (requestFor "example.com")
    { dns.Msg.new.SetQuestion "example.com." dns.TypeNS with
      answer := [dns.RR.CNAME "example.com." "ns1.example.com."] }
    (by decide) (by rfl) (fun owner ns hmem => by simp at hmem)

/-- C3: for every request whose `domain` parameter is missing or empty, the
handler answers status 400 with the body line "missing domain" and sends no
DNS query, whatever the allow-list, the resolver list and the resolver. -/
theorem checkHostHandler_missing_domain (caseTable : Char → Char) (g : Globals)
    (exchange : dns.Exchange) (r : http.Request)
    (h : r.query "domain" = [] ∨ ∃ rest, r.query "domain" = "" :: rest) :
    checkHostHandler caseTable g exchange r =
      ({ status := 400, body := ["missing domain"] }, []) := by
  have hget : http.Values.Get r.query "domain" = "" := by
    unfold http.Values.Get
    rcases h with h | ⟨rest, h⟩ <;> rw [h]
  unfold checkHostHandler
  simp only [hget, if_true]
  rfl

/-- A request without query string, against a resolver that would have
answered with an allow-listed NS record. -/
theorem checkHostHandler_missing_domain_witness :
    checkHostHandler plainCaseTable { ourNS := {"ns1.example.com."}, resolvers := [] }
      (anyResolverAnswering [dns.RR.NS "example.com." "ns1.example.com."])
      requestWithoutDomain = ({ status := 400, body := ["missing domain"] }, []) :=
  checkHostHandler_missing_domain plainCaseTable _ _ requestWithoutDomain (Or.inl rfl)

/-- C4: for every request with a non-empty `domain`, when the DNS exchange
returns an error the handler answers status 403 with the body line
"dns lookup failed", whatever the allow-list; the body is not that of an
authorisation denial ("forbidden"), the status is the same. -/
theorem checkHostHandler_dns_lookup_failed (caseTable : Char → Char) (g : Globals)
    (exchange : dns.Exchange) (r : http.Request) (err : String)
    (hdomain : http.Values.Get r.query "domain" ≠ "")
    (hex : exchange (nsQuestion (http.Values.Get r.query "domain")) resolverAddr =
      .error err) :
    (checkHostHandler caseTable g exchange r).1 =
        { status := 403, body := ["dns lookup failed"] } ∧
      (checkHostHandler caseTable g exchange r).1.body ≠
        (http.Error "forbidden" http.StatusForbidden).body ∧
      (checkHostHandler caseTable g exchange r).1.status =
        (http.Error "forbidden" http.StatusForbidden).status := by
  have hresp : (checkHostHandler caseTable g exchange r).1 =
      { status := 403, body := ["dns lookup failed"] } := by
    unfold checkHostHandler
    simp only [hdomain, if_false, hex]
    rfl
  rw [hresp]
  exact ⟨rfl, by decide, rfl⟩

/-- A transport failure for a domain whose allow-list is the whole point: the
answer is 403 "dns lookup failed". -/
theorem checkHostHandler_dns_lookup_failed_witness :
    (checkHostHandler plainCaseTable { ourNS := {"ns1.example.com."}, resolvers := [] }
      resolverDown (requestFor "example.com")).1 =
        { status := 403, body := ["dns lookup failed"] } :=
  (checkHostHandler_dns_lookup_failed plainCaseTable _ resolverDown
    (requestFor "example.com") "i/o timeout" (by decide) (by rfl)).1

/-- C9: the handler does not read the resolver list.  For every two values of
`resolvers` (what `main` loads from any `NAMESERVERS` setting) with the same
allow-list and request, and every two transports that agree on what the
resolver at 8.8.8.8:53 answers, the handler returns the same response and
sends the same queries, each of them to 8.8.8.8:53. -/
theorem checkHostHandler_ignores_resolvers (caseTable : Char → Char)
    (ourNS : Finset String) (resolvers1 resolvers2 : List String)
    (exchange1 exchange2 : dns.Exchange) (r : http.Request)
    (hex : ∀ m, exchange1 m "8.8.8.8:53" = exchange2 m "8.8.8.8:53") :
    checkHostHandler caseTable { ourNS := ourNS, resolvers := resolvers1 } exchange1 r =
        checkHostHandler caseTable { ourNS := ourNS, resolvers := resolvers2 } exchange2 r ∧
      ∀ q ∈ (checkHostHandler caseTable
          { ourNS := ourNS, resolvers := resolvers1 } exchange1 r).2,
        q.2 = "8.8.8.8:53" := by
  have hex2 : ∀ m, exchange1 m resolverAddr = exchange2 m resolverAddr := hex
  constructor
  · unfold checkHostHandler
    simp only [hex2]
  · intro q hq
    by_cases hdomain : http.Values.Get r.query "domain" = ""
    · unfold checkHostHandler at hq
      simp [hdomain] at hq
    · cases hres : exchange1 (nsQuestion (http.Values.Get r.query "domain")) resolverAddr with
      | error err =>
        unfold checkHostHandler at hq
        simp only [hdomain, if_false, hres, List.mem_singleton] at hq
        rw [hq]
        rfl
      | ok resp =>
        rw [checkHostHandler_of_ok caseTable _ exchange1 r resp hdomain hres] at hq
        simp only [List.mem_singleton] at hq
        rw [hq]
        rfl

/-- The default resolver list against `NAMESERVERS=9.9.9.9`, with a transport
that answers only at 8.8.8.8:53 against one that answers everywhere. -/
theorem checkHostHandler_ignores_resolvers_witness :
    checkHostHandler plainCaseTable
        { ourNS := {"ns1.example.com."},
          resolvers := (main (exampleEnv "ns1.example.com" none)).resolvers }
        (resolverAnswering [dns.RR.NS "example.com." "ns1.example.com."])
        (requestFor "example.com") =
      checkHostHandler plainCaseTable
        { ourNS := {"ns1.example.com."},
          resolvers := (main (exampleEnv "ns1.example.com" (some "9.9.9.9"))).resolvers }
        (anyResolverAnswering [dns.RR.NS "example.com." "ns1.example.com."])
        (requestFor "example.com") :=
  (checkHostHandler_ignores_resolvers plainCaseTable _ _ _
    (resolverAnswering [dns.RR.NS "example.com." "ns1.example.com."])
    (anyResolverAnswering [dns.RR.NS "example.com." "ns1.example.com."])
    (requestFor "example.com") (fun _ => rfl)).1

/-! ## The configuration loader -/

/-- C5: for every non-empty `OUR_NS` value, `init` succeeds and every entry of
the allow-list it builds ends with the trailing dot, is equal to its own
lowercasing, and is the lowercased, dot-terminated form of the trimmed name
of some comma-separated segment, a name that neither starts nor ends with
white space.  The case table of the Go toolchain is assumed to send a rune
above ASCII to a rune that lowercasing leaves alone. -/
theorem init_entries_normalised (caseTable : Char → Char)
    (htable : ∀ r : Char, 0x7F < r.toNat →
      unicode.ToLower caseTable (caseTable r) = caseTable r)
    (env : Environ) (hne : os.Getenv env "OUR_NS" ≠ "") :
    ∃ ourNS, init caseTable env = .ok ourNS ∧
      ∀ e ∈ ourNS,
        strings.HasSuffix e "." = true ∧
        strings.ToLower caseTable e = e ∧
        ∃ seg ∈ strings.Split (os.Getenv env "OUR_NS") ',',
          e = withTrailingDot (strings.ToLower caseTable (strings.TrimSpace seg)) ∧
          (∀ c, (strings.TrimSpace seg).data.head? = some c → unicode.IsSpace c = false) ∧
          (∀ c, (strings.TrimSpace seg).data.getLast? = some c →
            unicode.IsSpace c = false) := by
  refine ⟨_, init_ok_of_ne caseTable env hne, ?_⟩
  intro e he
  obtain ⟨seg, hseg, rfl⟩ := (mem_buildOurNS caseTable _ e).1 he
  refine ⟨HasSuffix_withTrailingDot _, ToLower_normalizeNS caseTable htable seg,
    seg, hseg, rfl, ?_, ?_⟩
  · exact fun c hc => TrimSpace_head seg c hc
  · exact fun c hc => TrimSpace_getLast seg c hc

/-- `OUR_NS="  NS1.Example.COM ,ns2.example.com."`: the allow-list is
`ns1.example.com.` and `ns2.example.com.`, and each entry ends with the dot
and is its own lowercasing. -/
theorem init_entries_normalised_witness :
    init plainCaseTable (exampleEnv "  NS1.Example.COM ,ns2.example.com." none) =
        .ok {"ns2.example.com.", "ns1.example.com."} ∧
      ∃ ourNS, init plainCaseTable
          (exampleEnv "  NS1.Example.COM ,ns2.example.com." none) = .ok ourNS ∧
        ∀ e ∈ ourNS, strings.HasSuffix e "." = true ∧ strings.ToLower plainCaseTable e = e :=
  ⟨by rfl, by
    obtain ⟨ourNS, hinit, hall⟩ := init_entries_normalised plainCaseTable
      (fun r hr => by
        unfold unicode.ToLower plainCaseTable
        rw [if_neg (by omega)])
      (exampleEnv "  NS1.Example.COM ,ns2.example.com." none) (by decide)
    exact ⟨ourNS, hinit, fun e he => ⟨(hall e he).1, (hall e he).2.1⟩⟩⟩

/-- C6: `init` ends in the fatal startup error exactly when `OUR_NS` is not
set or is empty; for every other value, one made only of white space or of
commas included, it succeeds and the allow-list it yields is not empty. -/
theorem init_fatal_iff_missing (caseTable : Char → Char) (env : Environ) :
    ((∃ msg, init caseTable env = .error msg) ↔
        (env "OUR_NS" = none ∨ env "OUR_NS" = some "")) ∧
      (∀ v, env "OUR_NS" = some v → v ≠ "" →
        ∃ ourNS, init caseTable env = .ok ourNS ∧ ourNS.Nonempty) := by
  constructor
  · constructor
    · rintro ⟨msg, hmsg⟩
      cases hv : env "OUR_NS" with
      | none => exact Or.inl rfl
      | some v =>
        right
        by_cases hempty : v = ""
        · rw [hempty]
        · have hne : os.Getenv env "OUR_NS" ≠ "" := by
            unfold os.Getenv
            rw [hv]
            exact hempty
          rw [init_ok_of_ne caseTable env hne] at hmsg
          cases hmsg
    · intro h
      have hget : os.Getenv env "OUR_NS" = "" := by
        unfold os.Getenv
        rcases h with h | h <;> rw [h] <;> rfl
      refine ⟨"OUR_NS environment variable not set", ?_⟩
      unfold init
      simp only [hget, if_true]
  · intro v hv hempty
    have hne : os.Getenv env "OUR_NS" ≠ "" := by
      unfold os.Getenv
      rw [hv]
      exact hempty
    exact ⟨_, init_ok_of_ne caseTable env hne, buildOurNS_nonempty caseTable _⟩

/-- C7: `splitAndTrim s` is the list of the comma-separated segments of `s`,
each trimmed, without the segments that are empty after trimming, in their
order; so none of its elements is empty, starts or ends with white space, or
holds a comma; and when `NAMESERVERS` is empty or not set, `main` loads the
resolver list `["1.1.1.1", "8.8.8.8"]`. -/
theorem splitAndTrim_eq_spec (s : String) :
    splitAndTrim s = splitAndTrimSpec s ∧
      (∀ part ∈ splitAndTrim s,
        part ≠ "" ∧
        (∀ c, part.data.head? = some c → unicode.IsSpace c = false) ∧
        (∀ c, part.data.getLast? = some c → unicode.IsSpace c = false) ∧
        ',' ∉ part.data) ∧
      (∀ env : Environ, os.Getenv env "NAMESERVERS" = "" →
        (main env).resolvers = ["1.1.1.1", "8.8.8.8"]) := by
  have heq : splitAndTrim s = splitAndTrimSpec s := by
    unfold splitAndTrim splitAndTrimSpec
    rw [foldl_splitAndTrim]
    rfl
  refine ⟨heq, ?_, ?_⟩
  · intro part hpart
    rw [heq] at hpart
    unfold splitAndTrimSpec at hpart
    obtain ⟨hmem, hne⟩ := List.mem_filter.1 hpart
    obtain ⟨seg, hseg, rfl⟩ := List.mem_map.1 hmem
    refine ⟨by simpa using hne, fun c hc => TrimSpace_head seg c hc,
      fun c hc => TrimSpace_getLast seg c hc, ?_⟩
    intro hcomma
    exact not_mem_of_mem_Split s ',' seg hseg (TrimSpace_subset seg ',' hcomma)
  · intro env henv
    unfold main
    simp only [henv, if_true]
    decide

/-- C8: the allow-list is a set of normalised names.  When the entries of two
`OUR_NS` values are the same up to order, repetition, letter case, surrounding
white space and a trailing dot, lines 22-30 of `init` build the same map from
both; when both values are non-empty `init` succeeds on both with that one
allow-list, and the handler then gives the same response and sends the same
query for every request and every resolver. -/
theorem init_set_semantics (caseTable : Char → Char) (s1 s2 : String)
    (hsame : sameEntries caseTable s1 s2) :
    buildOurNS caseTable s1 = buildOurNS caseTable s2 ∧
      ∀ env1 env2 : Environ, env1 "OUR_NS" = some s1 → env2 "OUR_NS" = some s2 →
        s1 ≠ "" → s2 ≠ "" →
        ∃ ourNS1 ourNS2, init caseTable env1 = .ok ourNS1 ∧
          init caseTable env2 = .ok ourNS2 ∧ ourNS1 = ourNS2 ∧
          ∀ (resolvers : List String) (exchange : dns.Exchange) (r : http.Request),
            checkHostHandler caseTable { ourNS := ourNS1, resolvers := resolvers } exchange r =
              checkHostHandler caseTable
                { ourNS := ourNS2, resolvers := resolvers } exchange r := by
  have heq : buildOurNS caseTable s1 = buildOurNS caseTable s2 := by
    apply Finset.ext
    intro e
    exact ⟨buildOurNS_subset_of_entries caseTable s1 s2 hsame.1 e,
      buildOurNS_subset_of_entries caseTable s2 s1
        (fun b hb => by
          obtain ⟨a, ha, hab⟩ := hsame.2 b hb
          exact ⟨a, ha, hab.symm⟩) e⟩
  refine ⟨heq, ?_⟩
  intro env1 env2 h1 h2 hne1 hne2
  have hg1 : os.Getenv env1 "OUR_NS" = s1 := by
    unfold os.Getenv
    rw [h1]
    rfl
  have hg2 : os.Getenv env2 "OUR_NS" = s2 := by
    unfold os.Getenv
    rw [h2]
    rfl
  refine ⟨buildOurNS caseTable s1, buildOurNS caseTable s2, ?_, ?_, heq, ?_⟩
  · rw [← hg1]
    exact init_ok_of_ne caseTable env1 (by rw [hg1]; exact hne1)
  · rw [← hg2]
    exact init_ok_of_ne caseTable env2 (by rw [hg2]; exact hne2)
  · intro resolvers exchange r
    rw [heq]

/-- `OUR_NS="NS1.Example.com , ns2.example.com."` against
`OUR_NS="ns2.example.com,ns1.example.com.,ns2.example.com"`: one allow-list. -/
theorem init_set_semantics_witness :
    buildOurNS plainCaseTable "NS1.Example.com , ns2.example.com." =
      buildOurNS plainCaseTable "ns2.example.com,ns1.example.com.,ns2.example.com" :=
  (init_set_semantics plainCaseTable "NS1.Example.com , ns2.example.com."
    "ns2.example.com,ns1.example.com.,ns2.example.com" (by decide)).1

/-- C10: `init`, unlike `splitAndTrim`, keeps the entries that are empty after
trimming.  For every non-empty `OUR_NS` value with a comma-separated segment
that is empty or made of white space only, `init` succeeds and the allow-list
holds the root name ".", no element of `splitAndTrim` of the same value is
empty, and the handler answers 200 "ok" to every request with a non-empty
domain whose successful DNS response carries an NS record with target ".". -/
theorem init_keeps_empty_entry (caseTable : Char → Char) (env : Environ) (v : String)
    (hv : env "OUR_NS" = some v) (hne : v ≠ "")
    (hseg : ∃ seg ∈ strings.Split v ',', ∀ c ∈ seg.data, unicode.IsSpace c = true) :
    ∃ ourNS, init caseTable env = .ok ourNS ∧ "." ∈ ourNS ∧ "" ∉ splitAndTrim v ∧
      ∀ (resolvers : List String) (exchange : dns.Exchange) (r : http.Request)
        (resp : dns.Msg) (owner : String),
        http.Values.Get r.query "domain" ≠ "" →
        exchange (nsQuestion (http.Values.Get r.query "domain")) resolverAddr = .ok resp →
        dns.RR.NS owner "." ∈ resp.answer →
        (checkHostHandler caseTable { ourNS := ourNS, resolvers := resolvers } exchange r).1 =
          { status := 200, body := ["ok"] } := by
  have hg : os.Getenv env "OUR_NS" = v := by
    unfold os.Getenv
    rw [hv]
    rfl
  have hinit : init caseTable env = .ok (buildOurNS caseTable v) := by
    rw [← hg]
    exact init_ok_of_ne caseTable env (by rw [hg]; exact hne)
  have hroot : "." ∈ buildOurNS caseTable v := by
    obtain ⟨seg, hmem, hspace⟩ := hseg
    refine (mem_buildOurNS caseTable v ".").2 ⟨seg, hmem, ?_⟩
    unfold normalizeNS
    rw [TrimSpace_eq_empty seg hspace]
    rfl
  refine ⟨_, hinit, hroot, ?_, ?_⟩
  · intro hmem
    have hspec : splitAndTrim v = splitAndTrimSpec v := by
      unfold splitAndTrim splitAndTrimSpec
      rw [foldl_splitAndTrim]
      rfl
    rw [hspec] at hmem
    unfold splitAndTrimSpec at hmem
    have := (List.mem_filter.1 hmem).2
    simp at this
  · intro resolvers exchange r resp owner hdomain hex hns
    have hfound : findOurNS caseTable (buildOurNS caseTable v) resp.answer = true :=
      (findOurNS_eq_true_iff caseTable _ resp.answer).2 ⟨owner, ".", hns, hroot⟩
    rw [checkHostHandler_of_ok caseTable _ exchange r resp hdomain hex]
    show (if findOurNS caseTable (buildOurNS caseTable v) resp.answer = true
      then http.Fprintln "ok" else http.Error "forbidden" http.StatusForbidden) = _
    rw [hfound]
    rfl

/-- `OUR_NS="ns1.example.com,"`, with a trailing comma: the allow-list holds
"." beside `ns1.example.com.`. -/
theorem init_keeps_empty_entry_witness :
    ∃ ourNS, init plainCaseTable (exampleEnv "ns1.example.com," none) = .ok ourNS ∧
      "." ∈ ourNS :=
  by
    obtain ⟨ourNS, hinit, hroot, _⟩ := init_keeps_empty_entry plainCaseTable
      (exampleEnv "ns1.example.com," none) "ns1.example.com," (by rfl) (by decide)
      ⟨"", by decide, by simp⟩
    exact ⟨ourNS, hinit, hroot⟩

end Endpoint
